import Mathlib

/-!
# Verification of the S-FNO-UD spectral/topological core (`sfno_ud.py`)

Shallow embedding of the simplicial-complex construction pipeline and the
forward operators of `src/docs/strat-repr/token-space/sfno_ud.py`, together
with theorems settling the specification claims about it.

Modelling conventions:
* Python float arithmetic is idealized as exact arithmetic: the boundary
  and Laplacian matrices are integer-valued, the forward operators are
  embedded generically over a commutative ring, and `ℝ` is used where a
  square root occurs (layer normalization).  Numerical tolerances (`1e-6`
  near-zero tests) therefore become exact-zero tests.
* A (sorted) simplex tuple is a `List ℕ`; the per-level input is a
  `List (List Simplex)` exactly as the constructor receives it.
* `scipy.sparse.linalg.eigsh` / `numpy.linalg.eigh` are external library
  calls; they are modelled by their mathematical contract on the symmetric
  positive-semidefinite matrices they are applied to: the number of
  near-zero eigenvalues of a PSD matrix equals its nullity `n - rank`, and
  a truncated decomposition of `m` smallest eigenvalues contains
  `min (n - rank) m` of them (the zero eigenvalues come first in the
  ascending order of a PSD spectrum).  The rank is computed executably by
  fraction-free Gaussian elimination (`elimRank`).
* `torch.einsum` raises a runtime error when two dimensions carrying the
  same subscript label disagree; einsum calls are therefore embedded as
  `Option`-valued functions that return `none` on a label-size mismatch.
  (PyTorch additionally broadcasts a size-1 dimension; every concrete
  input used below has mismatched sizes that are all ≥ 2, where PyTorch
  does raise, so the strict-equality check is faithful at those inputs.)
-/

open Matrix

namespace SFNO

/-- A simplex as the Python source stores it: a tuple of vertex indices. -/
abbrev Simplex := List ℕ

/-- Insertion step for `sortAsc`. -/
def insertAsc (x : ℕ) : List ℕ → List ℕ
  | [] => [x]
  | y :: ys => if x ≤ y then x :: y :: ys else y :: insertAsc x ys

/-- Ascending (stable) sort, modelling Python's `sorted` on vertex tuples. -/
def sortAsc : List ℕ → List ℕ
  | [] => []
  | x :: xs => insertAsc x (sortAsc xs)

/-- The `simplex_to_idx` dictionary of `_compute_boundary_matrices`:
`{tuple(sorted(s)): i for i, s in enumerate(simplices[k-1])}`.  A Python
dict comprehension lets the *last* occurrence of a duplicate key win, so the
lookup returns the largest matching index. -/
def simplexToIdx (l : List Simplex) (key : Simplex) : Option ℕ :=
  l.enum.foldl (fun acc p => if sortAsc p.2 = key then some p.1 else acc) none

/-- `n_simplices[k] = len(simplices[k])` (0 outside the stored levels). -/
def nSimp (S : List (List Simplex)) (k : ℕ) : ℕ := (S.getD k []).length

/-- `max_k = len(simplices) - 1`. -/
def maxK (S : List (List Simplex)) : ℕ := S.length - 1

/-- One dense entry of the boundary matrix `B_k`, as accumulated by the
source's sparse-COO triple loop: for the `c`-th `k`-simplex `σ` (sorted),
every position `i` contributes `(-1)^i` at the row of the face obtained by
deleting the vertex at position `i` (`tuple(x for x in sigma if x != v)`),
*if* that face is present in the level-`(k-1)` index table; duplicate
`(row, col)` triples are summed by `to_dense`. -/
def boundaryEntry (prev cur : List Simplex) (r c : ℕ) : ℤ :=
  let σ := sortAsc (cur.getD c [])
  (List.range σ.length).foldl
    (fun acc i =>
      let v := σ.getD i 0
      let face := σ.filter (fun x => x != v)
      match simplexToIdx prev face with
      | some r2 => if r2 = r then acc + (-1) ^ i else acc
      | none => acc)
    0

/-- The boundary matrix `B_k : C_k → C_{k-1}` of `_compute_boundary_matrices`
(meaningful for `1 ≤ k ≤ max_k`).  If either adjacent level is empty the
source appends an explicit zero matrix; otherwise the dense matrix built
from the signed-face triples (an empty triple list also yields zeros, which
the entry-sum form reproduces). -/
def Bmat (S : List (List Simplex)) (k : ℕ) :
    Matrix (Fin (nSimp S (k - 1))) (Fin (nSimp S k)) ℤ :=
  if nSimp S k = 0 ∨ nSimp S (k - 1) = 0 then 0
  else Matrix.of fun r c => boundaryEntry (S.getD (k - 1) []) (S.getD k []) r.val c.val

/-- `Bmat S (k + 1)` with its row index type stated as `Fin (nSimp S k)`
(definitionally equal, since `k + 1 - 1 = k`). -/
def BmatSucc (S : List (List Simplex)) (k : ℕ) :
    Matrix (Fin (nSimp S k)) (Fin (nSimp S (k + 1))) ℤ :=
  Bmat S (k + 1)

/-- The Hodge Laplacian `L_k` of `_compute_hodge_laplacians`:
`zeros(n_k, n_k)`, plus `B_k^T B_k` when `k > 0`, plus
`B_{k+1} B_{k+1}^T` when `k < max_k` (the stored `boundary_matrices[k]` is
never `None` for `1 ≤ k ≤ max_k + 1`, so the `is not None` guards of the
source are vacuous); an empty level yields the 0×0 zero matrix. -/
def Lmat (S : List (List Simplex)) (k : ℕ) :
    Matrix (Fin (nSimp S k)) (Fin (nSimp S k)) ℤ :=
  if nSimp S k = 0 then 0
  else
    (if 0 < k then (Bmat S k)ᵀ * Bmat S k else 0)
      + (if k < maxK S then BmatSucc S k * (BmatSucc S k)ᵀ else 0)

/-- Fraction-free Gaussian elimination (executable): rank of an integer
row-list matrix, recursing on the column count.  Replacing a non-pivot row
`r` by `pivothead * tail r - head r * tail pivot` scales `r` by the nonzero
pivot head and subtracts a multiple of the pivot row, so the rank over ℚ is
preserved at every step. -/
def elimRank : ℕ → List (List ℤ) → ℕ
  | 0, _ => 0
  | c + 1, rows =>
    match rows.find? (fun r => r.headD 0 != 0) with
    | none => elimRank c (rows.map List.tail)
    | some p =>
      let ph := p.headD 0
      let rest := rows.erase p
      let reduced := rest.map fun r =>
        (r.tail).zipWith (fun a b => ph * a - r.headD 0 * b) p.tail
      1 + elimRank c reduced

/-- A `Fin`-indexed matrix as a list of rows. -/
def matToLists {m n : ℕ} (A : Matrix (Fin m) (Fin n) ℤ) : List (List ℤ) :=
  List.ofFn fun i : Fin m => List.ofFn fun j : Fin n => A i j

/-- Executable rank of a `Fin`-indexed integer matrix. -/
def rankOf {m n : ℕ} (A : Matrix (Fin m) (Fin n) ℤ) : ℕ :=
  elimRank n (matToLists A)

/-- Modelled contract of the full symmetric eigendecomposition
(`numpy.linalg.eigh`) on the PSD matrix `L_k`: the number of eigenvalues
below the `1e-6` tolerance, idealized exactly, is the nullity `n - rank`. -/
def numZeroEigs {n : ℕ} (A : Matrix (Fin n) (Fin n) ℤ) : ℕ := n - rankOf A

/-- `n_modes = min(self.max_modes, n_k)` of `_compute_eigendecompositions`. -/
def nModes (S : List (List Simplex)) (M k : ℕ) : ℕ := min M (nSimp S k)

/-- `_compute_betti_numbers` at level `k`: the count of near-zero entries of
the stored eigenvalue vector `Λ_k`.  `_compute_eigendecompositions` stores
the `n_modes` smallest eigenvalues when `n_modes < n_k - 1` (iterative
truncated solver, or the dense fallback truncated to `n_modes`), and the
full spectrum otherwise; an empty level contributes 0.  Under the modelled
eigensolver contract (PSD, ascending) the truncated zero count is
`min (nullity) n_modes`. -/
def bettiAt (S : List (List Simplex)) (M k : ℕ) : ℕ :=
  if nSimp S k = 0 then 0
  else if nModes S M k < nSimp S k - 1 then
    min (numZeroEigs (Lmat S k)) (nModes S M k)
  else numZeroEigs (Lmat S k)

/-- The `betti_numbers` list (one entry per level `0 … max_k`). -/
def bettiList (S : List (List Simplex)) (M : ℕ) : List ℕ :=
  (List.range (maxK S + 1)).map (bettiAt S M)

/-- The attribute surface a constructed `SimplicialComplex` exposes; the
fields are exactly the (scalar/list) attributes assigned by `__init__`
(`simplices`, `max_k`, `max_modes`, `n_simplices`, `betti_numbers`); the
matrix-valued attributes are the dependent families `Bmat` and `Lmat`.
There is no truncation-flag field, because `__init__` assigns none. -/
structure SComplex where
  simplices : List (List Simplex)
  maxkField : ℕ
  maxModes : ℕ
  nSimplices : List ℕ
  bettiNumbers : List ℕ

/-- `SimplicialComplex.__init__(simplices, max_spectral_modes)`: stores the
input verbatim and derives everything else.  The source contains no
validation and no error path: no duplicate check, no vertex-range check, no
subset-closure check, and no `StructuralError` (no such name exists in the
repository). -/
def SimplicialComplexInit (S : List (List Simplex)) (M : ℕ) : SComplex :=
  { simplices := S
    maxkField := maxK S
    maxModes := M
    nSimplices := S.map List.length
    bettiNumbers := bettiList S M }

/-- `SimplicialComplex.from_sequence(length, window_size)`: vertices,
consecutive-pair edges, and (when `window_size ≥ 3 and length ≥ 3`)
sliding-window triangles `(i, i+1, i+2)`. -/
def fromSequenceSimplices (length window : ℕ) : List (List Simplex) :=
  let vertices := (List.range length).map fun i => [i]
  let edges := (List.range (length - 1)).map fun i => [i, i + 1]
  if 3 ≤ window ∧ 3 ≤ length then
    [vertices, edges, (List.range (length - 2)).map fun i => [i, i + 1, i + 2]]
  else [vertices, edges]

/-- Scenario A of the specification: triangle `{0,1,2}` with all edges and
the full 2-simplex, in the spec's stated order. -/
def triangleSimplices : List (List Simplex) :=
  [[[0], [1], [2]], [[0, 1], [1, 2], [0, 2]], [[0, 1, 2]]]

/-- Alternating sum `Σ_k (-1)^k · l[k]` (in ℤ) of a list of counts. -/
def alternatingSum (l : List ℕ) : ℤ :=
  (l.enum.map fun p => (-1) ^ p.1 * (p.2 : ℤ)).sum

/-! ## Runtime tensors and the forward operators

The forward operators receive tensors whose shapes are runtime data, so
they are embedded as sized entry functions (`Mat2`, `Ten3`) over an
arbitrary commutative ring (instantiated at `ℤ` for concrete evaluation
and at `ℝ` where layer normalization is involved). -/

/-- A 2-d tensor: `rows × cols` with an entry function. -/
structure Mat2 (α : Type) where
  rows : ℕ
  cols : ℕ
  w : ℕ → ℕ → α

/-- A 3-d tensor: `d0 × d1 × d2` with an entry function. -/
structure Ten3 (α : Type) where
  d0 : ℕ
  d1 : ℕ
  d2 : ℕ
  entry : ℕ → ℕ → ℕ → α

/-- `A.T` on a 2-d tensor. -/
def mat2T {α : Type} (A : Mat2 α) : Mat2 α :=
  ⟨A.cols, A.rows, fun i j => A.w j i⟩

/-- `X.transpose(1, 2)` on a `batch × n × c` tensor. -/
def transpose12 {α : Type} (X : Ten3 α) : Ten3 α :=
  ⟨X.d0, X.d2, X.d1, fun b i j => X.entry b j i⟩

/-- `a * X` (scalar times tensor). -/
def scale3 {α : Type} [CommRing α] (a : α) (X : Ten3 α) : Ten3 α :=
  ⟨X.d0, X.d1, X.d2, fun b n c => a * X.entry b n c⟩

/-- Entrywise application (an activation such as `F.relu`). -/
def map3 {α : Type} (f : α → α) (X : Ten3 α) : Ten3 α :=
  ⟨X.d0, X.d1, X.d2, fun b n c => f (X.entry b n c)⟩

/-- `X + Y` on tensors; PyTorch raises on a shape mismatch. -/
def add3 {α : Type} [CommRing α] (X Y : Ten3 α) : Option (Ten3 α) :=
  if X.d0 = Y.d0 ∧ X.d1 = Y.d1 ∧ X.d2 = Y.d2 then
    some ⟨X.d0, X.d1, X.d2, fun b n c => X.entry b n c + Y.entry b n c⟩
  else none

/-- `nn.Linear(in_f, out_f, bias=False)` applied to the last dimension of a
3-d tensor (`W : out_f × in_f`); PyTorch raises when the channel widths do
not match. -/
def linear3 {α : Type} [CommRing α] (W : Mat2 α) (X : Ten3 α) : Option (Ten3 α) :=
  if X.d2 = W.cols then
    some ⟨X.d0, X.d1, W.rows, fun b n o =>
      ∑ i ∈ Finset.range W.cols, X.entry b n i * W.w o i⟩
  else none

/-- `torch.einsum('ij,bji->bi', A, T)`: `A` carries labels `i = A.rows`,
`j = A.cols`; `T` carries `b = T.d0`, `j = T.d1`, `i = T.d2`.  The shared
labels are consistent only when `A.rows = T.d2` and `A.cols = T.d1`;
otherwise PyTorch raises a size-mismatch `RuntimeError` (`none`). -/
def einsum2ij3bji {α : Type} [CommRing α] (A : Mat2 α) (T : Ten3 α) : Option (Mat2 α) :=
  if A.rows = T.d2 ∧ A.cols = T.d1 then
    some ⟨T.d0, A.rows, fun b i => ∑ j ∈ Finset.range A.cols, A.w i j * T.entry b j i⟩
  else none

/-- `torch.einsum('nm,bni->bmi', A, T)`: the shared label `n` demands
`A.rows = T.d1`; output `b × m × i = T.d0 × A.cols × T.d2`. -/
def einsum2nm3bni {α : Type} [CommRing α] (A : Mat2 α) (T : Ten3 α) : Option (Ten3 α) :=
  if A.rows = T.d1 then
    some ⟨T.d0, A.cols, T.d2, fun b m i =>
      ∑ n ∈ Finset.range A.rows, A.w n m * T.entry b n i⟩
  else none

/-- `torch.einsum('mio,bmi->bmo', F, T)`: shared labels `m` (`F.d0 = T.d1`)
and `i` (`F.d1 = T.d2`); output `b × m × o`. -/
def einsum3mio3bmi {α : Type} [CommRing α] (F T : Ten3 α) : Option (Ten3 α) :=
  if F.d0 = T.d1 ∧ F.d1 = T.d2 then
    some ⟨T.d0, F.d0, F.d2, fun b m o =>
      ∑ i ∈ Finset.range F.d1, F.entry m i o * T.entry b m i⟩
  else none

/-- `torch.einsum('nm,bmo->bno', A, T)`: shared label `m` demands
`A.cols = T.d1`; output `b × n × o = T.d0 × A.rows × T.d2`. -/
def einsum2nm3bmo {α : Type} [CommRing α] (A : Mat2 α) (T : Ten3 α) : Option (Ten3 α) :=
  if A.cols = T.d1 then
    some ⟨T.d0, A.rows, T.d2, fun b n o =>
      ∑ m ∈ Finset.range A.cols, A.w n m * T.entry b m o⟩
  else none

/-- `SpectralConvolution.forward` with `filter_type='mlp'` (the constructor
default; the `'polynomial'` Chebyshev branch is not modelled):
`n_modes = min(self.n_modes, U.shape[1])`; `U_truncated = U[:, :n_modes]`
(a Python slice caps at the column count); then
`X_spectral = einsum('nm,bni->bmi', U_truncated.T, X)`,
`X_filtered = einsum('mio,bmi->bmo', self.spectral_filter[:n_modes], X_spectral)`,
`Y = einsum('nm,bmo->bno', U_truncated, X_filtered)`.  The eigenvalue
argument `Lambda` is unused in the `'mlp'` branch.  Any einsum label-size
mismatch propagates as `none` (a raised `RuntimeError`). -/
def spectralConvForward {α : Type} [CommRing α] (selfNModes : ℕ) (filt : Ten3 α)
    (U : Mat2 α) (X : Ten3 α) : Option (Ten3 α) := do
  let nm := min selfNModes U.cols
  let Utr : Mat2 α := ⟨U.rows, nm, U.w⟩
  let Xspec ← einsum2nm3bni (mat2T Utr) X
  let filtTr : Ten3 α := ⟨min nm filt.d0, filt.d1, filt.d2, filt.entry⟩
  let Xfilt ← einsum3mio3bmi filtTr Xspec
  einsum2nm3bmo Utr Xfilt

/-- The learnable state of a `BoundaryCoupling` module: the level flags
fixed at construction, the channel width `dim_k`, the projections
`W_down : dim_k × dim_{k+1}` and `W_up : dim_k × dim_{k-1}`, and the two
scalar gates `beta` and `gamma`. -/
structure BCParams (α : Type) where
  hasBelow : Bool
  hasAbove : Bool
  dimK : ℕ
  Wdown : Mat2 α
  Wup : Mat2 α
  beta : α
  gamma : α

/-- `output += g * coupled.unsqueeze(-1).expand(-1, -1, dimK)`: the
per-simplex scalar `coupled[b, n]` is broadcast across all `dimK`
channels; the in-place add raises unless the shapes agree. -/
def addGatedBroadcast {α : Type} [CommRing α] (out : Ten3 α) (g : α) (c : Mat2 α)
    (dimK : ℕ) : Option (Ten3 α) :=
  if out.d0 = c.rows ∧ out.d1 = c.cols ∧ out.d2 = dimK then
    some ⟨out.d0, out.d1, out.d2, fun b n ch => out.entry b n ch + g * c.w b n⟩
  else none

/-- `BoundaryCoupling.forward`: start from `zeros_like(X_k)`; when
`has_above ∧ X_{k+1} ≠ None ∧ B_{k+1} ≠ None ∧ X_{k+1}.shape[1] > 0`, add
the gated from-above term `beta * einsum('ij,bji->bi', B_{k+1},
W_down(X_{k+1}).transpose(1,2))` broadcast over channels; symmetrically
from below through `B_k.T` and `W_up`.  Failures inside a taken branch
(linear width mismatch, einsum label mismatch, broadcast-add mismatch)
propagate as `none`. -/
def boundaryCouplingForward {α : Type} [CommRing α] (p : BCParams α)
    (Xk : Ten3 α) (XkM1 XkP1 : Option (Ten3 α)) (Bk BkP1 : Option (Mat2 α)) :
    Option (Ten3 α) := do
  let out0 : Ten3 α := ⟨Xk.d0, Xk.d1, Xk.d2, fun _ _ _ => 0⟩
  let out1 ←
    match p.hasAbove, XkP1, BkP1 with
    | true, some xa, some ba =>
      if 0 < xa.d1 then do
        let xdown ← linear3 p.Wdown xa
        let coupled ← einsum2ij3bji ba (transpose12 xdown)
        addGatedBroadcast out0 p.beta coupled p.dimK
      else pure out0
    | _, _, _ => pure out0
  match p.hasBelow, XkM1, Bk with
  | true, some xb, some bk =>
    if 0 < xb.d1 then do
      let xup ← linear3 p.Wup xb
      let coupled ← einsum2ij3bji (mat2T bk) (transpose12 xup)
      addGatedBroadcast out1 p.gamma coupled p.dimK
    else pure out1
  | _, _, _ => pure out1

/-- The body of the per-level loop of `SFNOLayer.forward` for one level:
skip (pass the input through) when `n_k = 0`; otherwise
`S_k = alpha_k * spectral_conv(X_k, U_k)`, `B = boundary_coupling(...)`,
`R_k = W_res(X_k)`, `Y_k = S_k + B + R_k`, then `Y_k = norm(Y_k)`,
`Y_k = activation(Y_k)`, `Y_k = dropout(Y_k)`.  The module calls
`nn.LayerNorm(dims[k])`, `F.gelu`/`F.relu` and `nn.Dropout` are passed as
the function parameters `normF`, `actF`, `dropF`. -/
def sfnoLayerLevel {α : Type} [CommRing α]
    (normF actF dropF : Ten3 α → Ten3 α)
    (selfNModes : ℕ) (filt : Ten3 α) (alphaK : α)
    (bc : BCParams α) (Wres : Mat2 α) (U : Mat2 α)
    (Xk : Ten3 α) (Xbelow Xabove : Option (Ten3 α)) (Bk BkP1 : Option (Mat2 α)) :
    Option (Ten3 α) :=
  if Xk.d1 = 0 then some Xk
  else do
    let S ← spectralConvForward selfNModes filt U Xk
    let Bc ← boundaryCouplingForward bc Xk Xbelow Xabove Bk BkP1
    let R ← linear3 Wres Xk
    let Y ← add3 (scale3 alphaK S) Bc
    let Y ← add3 Y R
    pure (dropF (actF (normF Y)))

/-- The pre-normalization sum `alpha_k * S_k + B + R_k` of one level of
`SFNOLayer.forward` (everything before the norm/activation/dropout calls),
used to state how the tail of the loop body composes. -/
def sfnoLayerPre {α : Type} [CommRing α]
    (selfNModes : ℕ) (filt : Ten3 α) (alphaK : α)
    (bc : BCParams α) (Wres : Mat2 α) (U : Mat2 α)
    (Xk : Ten3 α) (Xbelow Xabove : Option (Ten3 α)) (Bk BkP1 : Option (Mat2 α)) :
    Option (Ten3 α) := do
  let S ← spectralConvForward selfNModes filt U Xk
  let Bc ← boundaryCouplingForward bc Xk Xbelow Xabove Bk BkP1
  let R ← linear3 Wres Xk
  let Y ← add3 (scale3 alphaK S) Bc
  add3 Y R

/-- Modelled from the spec (§4.8, claim C5's formula), for comparison with
`sfnoLayerLevel`: `Y_k = Norm(Activation(alpha_k * S_k + B_k + R_k))` with
the normalization applied *outside* the activation and no dropout, plus the
zero-size bypass. -/
def specLayerLevel {α : Type} [CommRing α]
    (normF actF : Ten3 α → Ten3 α)
    (selfNModes : ℕ) (filt : Ten3 α) (alphaK : α)
    (bc : BCParams α) (Wres : Mat2 α) (U : Mat2 α)
    (Xk : Ten3 α) (Xbelow Xabove : Option (Ten3 α)) (Bk BkP1 : Option (Mat2 α)) :
    Option (Ten3 α) :=
  if Xk.d1 = 0 then some Xk
  else (sfnoLayerPre selfNModes filt alphaK bc Wres U Xk Xbelow Xabove Bk BkP1).map
    fun Y => normF (actF Y)

/-- `F.relu`, exact on an ordered field. -/
def relu (x : ℝ) : ℝ := max x 0

/-- `nn.LayerNorm(d)` (default `eps = 1e-5`, elementwise affine weights
`g`/`bz`) applied to the last dimension of a `batch × n × d` tensor:
normalize by the biased variance of the `d` channels. -/
noncomputable def layerNorm3 (d : ℕ) (g bz : ℕ → ℝ) (eps : ℝ) (X : Ten3 ℝ) : Ten3 ℝ :=
  ⟨X.d0, X.d1, X.d2, fun b n c =>
    let μ := (∑ j ∈ Finset.range d, X.entry b n j) / d
    let v := (∑ j ∈ Finset.range d, (X.entry b n j - μ) ^ 2) / d
    g c * ((X.entry b n c - μ) / Real.sqrt (v + eps)) + bz c⟩

/-! Concrete single-level layer instance (`max_k = 0`, `batch = 1`,
`n_0 = 1`, `d_0 = 2`): a legitimate run of `SFNOLayer.forward` with
`activation='relu'`, used to compare the source's composition order with
the specification's formula.  For a single-vertex complex the Hodge
Laplacian is the 1×1 zero matrix, whose full eigendecomposition has
`U = [[1]]`; the spectral filter weights are zero, the residual weight is
the identity, `alpha_0 = 1`, and (as `max_k = 0`) the coupling module has
both neighbor flags `False`. -/

/-- Input features `X = [[[1, -1]]]`. -/
def xIn : Ten3 ℝ := ⟨1, 1, 2, fun _ _ c => if c = 0 then 1 else -1⟩

/-- Identity residual weight `W_res` on two channels. -/
def wResId : Mat2 ℝ := ⟨2, 2, fun i j => if i = j then 1 else 0⟩

/-- Zero spectral-filter weights of shape `1 × 2 × 2`. -/
def filtZero : Ten3 ℝ := ⟨1, 2, 2, fun _ _ _ => 0⟩

/-- The `1 × 1` eigenvector matrix `U = [[1]]` of the single-vertex level. -/
def uOne : Mat2 ℝ := ⟨1, 1, fun _ _ => 1⟩

/-- Coupling parameters of the single-level layer: both neighbor flags
`False` (so `BoundaryCoupling.forward` returns `zeros_like(X_k)`). -/
def bcNone : BCParams ℝ := ⟨false, false, 2, ⟨0, 0, fun _ _ => 0⟩, ⟨0, 0, fun _ _ => 0⟩, 1, 1⟩

/-- `nn.LayerNorm(2)` with the default parameters `gamma = 1`, `beta = 0`,
`eps = 1e-5`. -/
noncomputable def normDefault : Ten3 ℝ → Ten3 ℝ :=
  layerNorm3 2 (fun _ => 1) (fun _ => 0) (1 / 100000)

/-- `F.relu` applied entrywise (the `activation='relu'` configuration). -/
def reluT : Ten3 ℝ → Ten3 ℝ := map3 relu

end SFNO

namespace SFNO

/-- Claim C1: the specification asserts `B_k · B_{k+1} = 0` for every
constructed complex, including those produced by `from_sequence`; the
source violates it.  For `from_sequence(length=3, window_size=3)` the
single 2-simplex `(0,1,2)` has its face `(0,2)` missing from level 1, the
boundary builder silently drops that face term, and the product
`B_1 · B_2` equals `(-1, 0, 1)^T ≠ 0`. -/
theorem boundary_of_boundary_fails_from_sequence :
    Bmat (fromSequenceSimplices 3 3) 1 * Bmat (fromSequenceSimplices 3 3) 2
        = Matrix.of ![![-1], ![0], ![1]]
    ∧ Bmat (fromSequenceSimplices 3 3) 1 * Bmat (fromSequenceSimplices 3 3) 2 ≠ 0 := by
  decide

/-- Claim C2 (counterexample): the claim says a duplicate simplex at some
level makes construction fail with a `StructuralError`; in fact
`SimplicialComplex([[(0,), (0,)]])` succeeds and returns a fully
constructed complex with `n = [2]` and `betti_numbers = [2]`. -/
theorem construction_accepts_duplicate_simplex :
    (SimplicialComplexInit [[[0], [0]]] 64).nSimplices = [2]
    ∧ (SimplicialComplexInit [[[0], [0]]] 64).bettiNumbers = [2] := by
  decide

/-- Claim C2 (amended): construction performs no validation at all — any
per-level simplex sequence is stored verbatim and the whole pipeline
(counts, boundaries, Laplacians, spectra, Betti numbers) runs to
completion; no `StructuralError` exists in the source. -/
theorem construction_never_validates (A : List Simplex)
    (rest : List (List Simplex)) (M : ℕ) :
    (SimplicialComplexInit (A :: rest) M).simplices = A :: rest
    ∧ (SimplicialComplexInit (A :: rest) M).nSimplices = (A :: rest).map List.length
    ∧ (SimplicialComplexInit (A :: rest) M).bettiNumbers.length = (A :: rest).length := by
  refine ⟨rfl, rfl, ?_⟩
  show (bettiList (A :: rest) M).length = (A :: rest).length
  simp [bettiList, maxK]

/-- Claim C3: the constructed complex exposes no truncation flag of any
kind; when `max_spectral_modes = 1 < n_0 = 3` (three isolated vertices,
`L_0 = 0`), `betti_numbers` silently reports `beta_0 = 1` — only the single
computed eigenvalue is counted — while the full spectrum (`M = 64`) gives
the true kernel dimension 3.  The truncated value is strictly below the
true one with nothing marking it as a lower bound. -/
theorem betti_truncation_silent :
    (SimplicialComplexInit [[[0], [1], [2]]] 1).bettiNumbers = [1]
    ∧ (SimplicialComplexInit [[[0], [1], [2]]] 64).bettiNumbers = [3]
    ∧ nModes [[[0], [1], [2]]] 1 0 < nSimp [[[0], [1], [2]]] 0 := by
  decide

/-- Claim C4: at the declared shapes (`X_k : 1 × 2 × 4`,
`X_{k+1} : 1 × 3 × 2`, `B_{k+1} : 2 × 3`, `W_down : 4 × 2`),
`BoundaryCoupling.forward` raises instead of returning the gated sum: the
from-above `einsum('ij,bji->bi', B_{k+1}, W_down(X_{k+1}).transpose(1,2))`
labels `j` with both `n_{k+1} = 3` and `dim_k = 4`, and `i` with both
`n_k = 2` and `n_{k+1} = 3` (`none` in the embedding).  The degenerate
branch of the claim does hold: with both neighbor levels absent the output
is exactly the zero tensor. -/
theorem boundary_coupling_einsum_raises :
    boundaryCouplingForward (α := ℤ)
        ⟨false, true, 4, ⟨4, 2, fun _ _ => 0⟩, ⟨0, 0, fun _ _ => 0⟩, 1, 1⟩
        ⟨1, 2, 4, fun _ _ _ => 0⟩ none (some ⟨1, 3, 2, fun _ _ _ => 0⟩)
        none (some ⟨2, 3, fun _ _ => 1⟩) = none
    ∧ boundaryCouplingForward (α := ℤ)
        ⟨false, false, 4, ⟨0, 0, fun _ _ => 0⟩, ⟨0, 0, fun _ _ => 0⟩, 1, 1⟩
        ⟨1, 2, 4, fun _ _ _ => 5⟩ none none none none
        = some ⟨1, 2, 4, fun _ _ _ => 0⟩ :=
  ⟨rfl, rfl⟩

/-- Claim C5 (counterexample): on the concrete single-level instance
(`X = [[[1, -1]]]`, relu activation, default LayerNorm, dropout in eval
mode = identity) the source computes
`Dropout(Activation(Norm(alpha*S + B + R)))`, whose channel-1 entry is
`relu(-1/sqrt(1 + 1e-5)) = 0`, while the specification formula
`Norm(Activation(alpha*S + B + R))` gives
`(0 - 1/2)/sqrt(1/4 + 1e-5) < 0`: the two composition orders produce
different outputs, so the claimed equation fails on the code. -/
theorem layer_norm_activation_order_differs :
    (sfnoLayerLevel normDefault reluT id 1 filtZero 1 bcNone wResId uOne xIn
        none none none none).isSome = true
    ∧ (sfnoLayerLevel normDefault reluT id 1 filtZero 1 bcNone wResId uOne xIn
        none none none none).elim 0 (fun Y => Y.entry 0 0 1) = 0
    ∧ (specLayerLevel normDefault reluT 1 filtZero 1 bcNone wResId uOne xIn
        none none none none).elim 0 (fun Y => Y.entry 0 0 1) < 0
    ∧ (sfnoLayerLevel normDefault reluT id 1 filtZero 1 bcNone wResId uOne xIn
          none none none none).map (fun Y => Y.entry 0 0 1)
        ≠ (specLayerLevel normDefault reluT 1 filtZero 1 bcNone wResId uOne xIn
          none none none none).map (fun Y => Y.entry 0 0 1) := by
  have hsome : (sfnoLayerLevel normDefault reluT id 1 filtZero 1 bcNone wResId uOne xIn
      none none none none).isSome = true := by
    simp [sfnoLayerLevel, spectralConvForward, boundaryCouplingForward, linear3, add3,
      scale3, einsum2nm3bni, einsum3mio3bmi, einsum2nm3bmo, mat2T, xIn, filtZero, uOne,
      bcNone, wResId, Option.bind]
  have hcode : (sfnoLayerLevel normDefault reluT id 1 filtZero 1 bcNone wResId uOne xIn
      none none none none).elim 0 (fun Y => Y.entry 0 0 1) = 0 := by
    simp [sfnoLayerLevel, spectralConvForward, boundaryCouplingForward, linear3, add3,
      scale3, einsum2nm3bni, einsum3mio3bmi, einsum2nm3bmo, mat2T, xIn, filtZero, uOne,
      bcNone, wResId, normDefault, layerNorm3, reluT, map3, relu, Option.bind,
      Finset.sum_range_succ, Finset.sum_range_zero]
    exact div_nonpos_iff.mpr (Or.inr ⟨by norm_num, Real.sqrt_nonneg _⟩)
  have hspec : (specLayerLevel normDefault reluT 1 filtZero 1 bcNone wResId uOne xIn
      none none none none).elim 0 (fun Y => Y.entry 0 0 1) < 0 := by
    simp [specLayerLevel, sfnoLayerPre, spectralConvForward, boundaryCouplingForward,
      linear3, add3, scale3, einsum2nm3bni, einsum3mio3bmi, einsum2nm3bmo, mat2T, xIn,
      filtZero, uOne, bcNone, wResId, normDefault, layerNorm3, reluT, map3, relu,
      Option.bind, Finset.sum_range_succ, Finset.sum_range_zero]
    exact div_neg_of_neg_of_pos (by norm_num) (Real.sqrt_pos.mpr (by positivity))
  refine ⟨hsome, hcode, hspec, ?_⟩
  intro hEq
  rcases hO : sfnoLayerLevel normDefault reluT id 1 filtZero 1 bcNone wResId uOne xIn
      none none none none with _ | Yc
  · rw [hO] at hsome; simp at hsome
  rcases hP : specLayerLevel normDefault reluT 1 filtZero 1 bcNone wResId uOne xIn
      none none none none with _ | Ys
  · rw [hP] at hspec; simp at hspec
  rw [hO, hP] at hEq
  simp only [Option.map_some', Option.some.injEq] at hEq
  rw [hO] at hcode
  rw [hP] at hspec
  simp only [Option.elim_some] at hcode hspec
  rw [hEq] at hcode
  rw [hcode] at hspec
  exact lt_irrefl 0 hspec

/-- Claim C5 (amended): a level with zero simplices passes its tensor
through unchanged, and a nonempty level computes
`Y_k = Dropout(Activation(Norm(alpha_k * S_k + B + R_k)))` — the
normalization is applied *inside* (before) the activation, with dropout
after it, not `Norm(Activation(...))` as the specification formula
states. -/
theorem layer_norm_applied_before_activation {α : Type} [CommRing α]
    (normF actF dropF : Ten3 α → Ten3 α) (selfNModes : ℕ) (filt : Ten3 α) (alphaK : α)
    (bc : BCParams α) (Wres : Mat2 α) (U : Mat2 α)
    (b c : ℕ) (e : ℕ → ℕ → ℕ → α) (n : ℕ)
    (Xbelow Xabove : Option (Ten3 α)) (Bk BkP1 : Option (Mat2 α)) :
    sfnoLayerLevel normF actF dropF selfNModes filt alphaK bc Wres U ⟨b, 0, c, e⟩
        Xbelow Xabove Bk BkP1 = some ⟨b, 0, c, e⟩
    ∧ sfnoLayerLevel normF actF dropF selfNModes filt alphaK bc Wres U ⟨b, n + 1, c, e⟩
        Xbelow Xabove Bk BkP1
      = (sfnoLayerPre selfNModes filt alphaK bc Wres U ⟨b, n + 1, c, e⟩
          Xbelow Xabove Bk BkP1).map fun Y => dropF (actF (normF Y)) := by
  refine ⟨by simp [sfnoLayerLevel], ?_⟩
  simp only [sfnoLayerLevel, sfnoLayerPre, Nat.succ_ne_zero, if_false]
  cases hS : spectralConvForward selfNModes filt U ⟨b, n + 1, c, e⟩ with
  | none => simp [hS, Option.bind]
  | some S =>
    cases hB : boundaryCouplingForward bc ⟨b, n + 1, c, e⟩ Xbelow Xabove Bk BkP1 with
    | none => simp [hS, hB, Option.bind]
    | some Bc =>
      cases hR : linear3 Wres ⟨b, n + 1, c, e⟩ with
      | none => simp [hS, hB, hR, Option.bind]
      | some R =>
        cases hY : add3 (scale3 alphaK S) Bc with
        | none => simp [hS, hB, hR, hY, Option.bind]
        | some Y =>
          cases hY2 : add3 Y R with
          | none => simp [hS, hB, hR, hY, hY2, Option.bind]
          | some Y2 => simp [hS, hB, hR, hY, hY2, Option.bind]

/-- Claim C6: the Euler–Poincaré identity fails on a constructed complex
with full (untruncated, `M = 64 ≥ n_k`) spectra: for
`from_sequence(length=3, window_size=3)`, `n = [3, 2, 1]` and
`beta = [1, 0, 0]`, so `Σ (-1)^k n_k = 2` while `Σ (-1)^k beta_k = 1`. -/
theorem euler_poincare_fails_from_sequence :
    (SimplicialComplexInit (fromSequenceSimplices 3 3) 64).nSimplices = [3, 2, 1]
    ∧ (SimplicialComplexInit (fromSequenceSimplices 3 3) 64).bettiNumbers = [1, 0, 0]
    ∧ (∀ k, k < 3 → nModes (fromSequenceSimplices 3 3) 64 k = nSimp (fromSequenceSimplices 3 3) k)
    ∧ alternatingSum ((SimplicialComplexInit (fromSequenceSimplices 3 3) 64).nSimplices) = 2
    ∧ alternatingSum ((SimplicialComplexInit (fromSequenceSimplices 3 3) 64).bettiNumbers) = 1
    ∧ alternatingSum ((SimplicialComplexInit (fromSequenceSimplices 3 3) 64).nSimplices)
        ≠ alternatingSum ((SimplicialComplexInit (fromSequenceSimplices 3 3) 64).bettiNumbers) := by
  decide

/-- Claim C7: Scenario A — the triangle complex with vertices `{0,1,2}`,
edges `{(0,1),(1,2),(0,2)}` and the 2-simplex `(0,1,2)` yields
`n = [3, 3, 1]`, `beta = [1, 0, 0]`, and Euler characteristic
`3 - 3 + 1 = 1 = 1 - 0 + 0`. -/
theorem triangle_scenario_counts :
    (SimplicialComplexInit triangleSimplices 64).nSimplices = [3, 3, 1]
    ∧ (SimplicialComplexInit triangleSimplices 64).bettiNumbers = [1, 0, 0]
    ∧ alternatingSum ((SimplicialComplexInit triangleSimplices 64).nSimplices) = 1
    ∧ alternatingSum ((SimplicialComplexInit triangleSimplices 64).bettiNumbers) = 1 := by
  decide

/-- Claim C8: for every constructed complex and every level `k ≤ max_k`
with `n_k > 0`, the assembled Hodge Laplacian is exactly the sum of the
`B_k^T B_k` term (dropped at `k = 0`) and the `B_{k+1} B_{k+1}^T` term
(dropped at the top level), of size `n_k × n_k` (encoded in the matrix
type), and it is exactly symmetric. -/
theorem hodge_laplacian_terms_symmetric (S : List (List Simplex)) (k : ℕ)
    (hk : k ≤ maxK S) (hn : 0 < nSimp S k) :
    Lmat S k =
      (if 0 < k then (Bmat S k)ᵀ * Bmat S k else 0)
        + (if k < maxK S then BmatSucc S k * (BmatSucc S k)ᵀ else 0)
    ∧ (Lmat S k)ᵀ = Lmat S k := by
  have h0 : ¬ nSimp S k = 0 := by omega
  constructor
  · rw [Lmat, if_neg h0]
  · rw [Lmat, if_neg h0, transpose_add]
    congr 1
    · by_cases hkp : 0 < k
      · rw [if_pos hkp, transpose_mul, transpose_transpose]
      · rw [if_neg hkp, transpose_zero]
    · by_cases hkm : k < maxK S
      · rw [if_pos hkm, transpose_mul, transpose_transpose]
      · rw [if_neg hkm, transpose_zero]

/-- Witness for C8 at the triangle complex, level 0. -/
theorem hodge_laplacian_terms_symmetric_witness :
    0 ≤ maxK triangleSimplices ∧ 0 < nSimp triangleSimplices 0
    ∧ (Lmat triangleSimplices 0)ᵀ = Lmat triangleSimplices 0 :=
  ⟨by decide, by decide,
    (hodge_laplacian_terms_symmetric triangleSimplices 0 (by decide) (by decide)).2⟩

/-- Claim C9: `SpectralConvolution.forward` raises instead of silently
using fewer modes when fewer eigenvectors are available than the
configured mode count: with `n_modes = 5`, `U : 3 × 2` (only 2
eigenvectors), `X : 1 × 3 × 1`, the first projection
`einsum('nm,bni->bmi', U_truncated.T, X)` labels `n` with both
`min(5, 2) = 2` and `n_simplices = 3` and errors (`none`). -/
theorem spectral_conv_raises_on_truncated_eigenbasis :
    spectralConvForward (α := ℤ) 5 ⟨5, 1, 1, fun _ _ _ => 0⟩
      ⟨3, 2, fun _ _ => 0⟩ ⟨1, 3, 1, fun _ _ _ => 0⟩ = none := rfl

/-- Claim C10: for `length ≥ 3` and `window_size ≥ 3`, `from_sequence`
builds exactly the vertex/edge/sliding-window-triangle levels; the face
`(i, i+2)` of the level-2 simplex `(i, i+1, i+2)` is absent from level 1
(the complex is not closed under subsets); construction nevertheless fully
succeeds (`n = [L, L-1, L-2]`); and the boundary builder silently omits the
missing-face entry — at `L = 3` the column of `B_2` has entries `(1, 1)`
for the two present faces only. -/
theorem from_sequence_not_subset_closed (L w : ℕ) (hL : 3 ≤ L) (hw : 3 ≤ w) :
    fromSequenceSimplices L w =
      [(List.range L).map fun i => [i],
       (List.range (L - 1)).map fun i => [i, i + 1],
       (List.range (L - 2)).map fun i => [i, i + 1, i + 2]]
    ∧ (∀ i, i < L - 2 → [i, i + 2] ∉ (fromSequenceSimplices L w).getD 1 [])
    ∧ (SimplicialComplexInit (fromSequenceSimplices L w) 64).nSimplices = [L, L - 1, L - 2]
    ∧ Bmat (fromSequenceSimplices 3 3) 2 = Matrix.of ![![1], ![1]] := by
  have hfs : fromSequenceSimplices L w =
      [(List.range L).map fun i => [i],
       (List.range (L - 1)).map fun i => [i, i + 1],
       (List.range (L - 2)).map fun i => [i, i + 1, i + 2]] := by
    simp [fromSequenceSimplices, hL, hw]
  refine ⟨hfs, ?_, ?_, by decide⟩
  · intro i hi hmem
    rw [hfs] at hmem
    simp only [List.getD_cons_succ, List.getD_cons_zero, List.mem_map,
      List.mem_range] at hmem
    obtain ⟨a, ha, hEq⟩ := hmem
    simp only [List.cons.injEq, and_true] at hEq
    omega
  · show (fromSequenceSimplices L w).map List.length = _
    rw [hfs]
    simp

/-- Witness for C10 at `L = w = 3`. -/
theorem from_sequence_not_subset_closed_witness :
    3 ≤ 3
    ∧ (SimplicialComplexInit (fromSequenceSimplices 3 3) 64).nSimplices = [3, 3 - 1, 3 - 2] :=
  ⟨by decide, (from_sequence_not_subset_closed 3 3 (by decide) (by decide)).2.2.1⟩

end SFNO
